import Mathlib

/-
Verification of the linkin URL-shortener core (src/config.js, src/db.js,
src/middleware.js, src/routes.js) as a shallow embedding.

Timestamps are modelled as `Int` milliseconds since the epoch; the JS code
stores ISO strings and converts with `new Date(x).getTime()`, which is the
identity under this encoding.  Each handler invocation reads the clock once
(`now`); the JS occasionally reads it twice within one handler
(`Date.now()` and `new Date().toISOString()`), which is modelled as a
single read.  The random id produced by `nanoid(6)` is passed in as an
explicit argument, since the generator is an external library.
-/

namespace Linkin

/-! ## src/config.js -/

/-- `RATE_LIMIT = 5` — max requests per window (src/config.js). -/
def RATE_LIMIT : Nat := 5

/-- `RATE_WINDOW_MS = 60 * 60 * 1000` — 1 hour in ms (src/config.js). -/
def RATE_WINDOW_MS : Int := 60 * 60 * 1000

/-- `EXPIRY_MS = 168 * 60 * 60 * 1000` — 168 hours in ms (src/config.js). -/
def EXPIRY_MS : Int := 168 * 60 * 60 * 1000

/-- `LAST_ACCESS_LIMIT = 72 * 60 * 60 * 1000` — 72 hours in ms (src/config.js). -/
def LAST_ACCESS_LIMIT : Int := 72 * 60 * 60 * 1000

/-! ## Data model: the record stored in `dbCache` (src/routes.js, POST /shorten) -/

/-- One value of the in-memory cache: `{ originalUrl, created, expires,
lastAccessed, clicks }` as written by the POST /shorten handler. -/
structure Entry where
  originalUrl : String
  created : Int
  expires : Int
  lastAccessed : Int
  clicks : Nat
deriving DecidableEq

/-- The in-memory cache `dbCache`, a JS object keyed by the short id,
modelled as an association list (reachable caches have no duplicate keys). -/
abbrev Store := List (String × Entry)

/-- Property read `dbCache[id]`: the first binding for `id`, if any. -/
def cacheGet (s : Store) (id : String) : Option Entry :=
  match s with
  | [] => none
  | (k, e) :: rest => if k = id then some e else cacheGet rest id

/-- `delete dbCache[id]`: remove every binding for `id`. -/
def cacheDelete (s : Store) (id : String) : Store :=
  match s with
  | [] => []
  | (k, e) :: rest =>
    if k = id then cacheDelete rest id else (k, e) :: cacheDelete rest id

/-- Property write `dbCache[id] = e`: replace the first binding for `id`
in place, or append a new binding when none exists (JS object assignment). -/
def cacheSet (s : Store) (id : String) (e : Entry) : Store :=
  match s with
  | [] => [(id, e)]
  | (k, e0) :: rest =>
    if k = id then (k, e) :: rest else (k, e0) :: cacheSet rest id e

/-! ## src/db.js: Write-Back Scheduler (`bufferedSave`) -/

/-- Scheduler state: `pending` models `saveTimer` being non-null (a flush is
queued), `writes` counts completed durable writes (`writeFileSync` calls). -/
structure Sched where
  pending : Bool
  writes : Nat
deriving DecidableEq

/-- Startup scheduler state: `saveTimer = null`, no writes yet. -/
def Sched.init : Sched := ⟨false, 0⟩

/-- `bufferedSave()` (src/db.js): if a flush is already queued
(`if (saveTimer) return`) do nothing, else queue one. -/
def bufferedSave (t : Sched) : Sched :=
  if t.pending then t else { t with pending := true }

/-- The queued timer callback firing after 200 ms (src/db.js): perform one
durable write and reset `saveTimer` to null. -/
def flushFire (t : Sched) : Sched :=
  { pending := false, writes := t.writes + 1 }

/-! ## src/db.js: `recycle` (the hourly sweeper) -/

/-- The sweeper's eviction test (src/db.js, `recycle`):
`now > entry.expires || now - entry.lastAccessed > LAST_ACCESS_LIMIT`. -/
def shouldEvict (now : Int) (e : Entry) : Prop :=
  now > e.expires ∨ now - e.lastAccessed > LAST_ACCESS_LIMIT

instance shouldEvictDec (now : Int) (e : Entry) : Decidable (shouldEvict now e) :=
  inferInstanceAs (Decidable (_ ∨ _))

/-- The `for (const [id, entry] of Object.entries(dbCache))` loop body of
`recycle`: returns the surviving cache and the `changed` flag. -/
def recycleLoop (now : Int) : Store → Store × Bool
  | [] => ([], false)
  | (k, e) :: rest =>
    if shouldEvict now e then ((recycleLoop now rest).1, true)
    else ((k, e) :: (recycleLoop now rest).1, (recycleLoop now rest).2)

/-- `recycle()` (src/db.js): run the eviction loop, then
`if (changed) bufferedSave()`.  The final `Nat` counts how many times
`bufferedSave` was invoked by this run of the sweeper. -/
def recycle (now : Int) (s : Store) (t : Sched) : Store × Sched × Nat :=
  ((recycleLoop now s).1,
   if (recycleLoop now s).2 then (bufferedSave t, 1) else (t, 0))

/-! ## src/routes.js: the three handlers touching the cache -/

/-- Outcome of `GET /:id`: a 302 redirect to the stored target, or the 404
page. -/
inductive ResolveResult where
  | notFound
  | redirect (target : String)
deriving DecidableEq

/-- `POST /shorten` handler body after the limiter (src/routes.js): reject an
empty url with 400, else store a new entry under the nanoid-generated `id`
and queue a save.  Returns the `expires` value of the response on success. -/
def createOp (now : Int) (id url : String) (s : Store) (t : Sched) :
    Option Int × Store × Sched :=
  if url = "" then (none, s, t)
  else
    (some (now + EXPIRY_MS),
     cacheSet s id
       { originalUrl := url, created := now, expires := now + EXPIRY_MS,
         lastAccessed := now, clicks := 0 },
     bufferedSave t)

/-- `GET /:id` handler (src/routes.js): missing entry → 404; expired entry →
delete it, then 404; otherwise bump `clicks`, refresh `lastAccessed`, queue a
save and redirect to `originalUrl`. -/
def resolveOp (now : Int) (id : String) (s : Store) (t : Sched) :
    ResolveResult × Store × Sched :=
  match cacheGet s id with
  | none => (.notFound, s, t)
  | some e =>
    if now > e.expires then (.notFound, cacheDelete s id, t)
    else
      (.redirect e.originalUrl,
       cacheSet s id { e with clicks := e.clicks + 1, lastAccessed := now },
       bufferedSave t)

/-- The JSON body returned by `GET /:id/stats` (src/routes.js). -/
structure StatsView where
  id : String
  originalUrl : String
  clicks : Nat
  created : Int
  expires : Int
  lastAccessed : Int
deriving DecidableEq

/-- `GET /:id/stats` handler (src/routes.js): identical lookup, eviction and
mutation to `GET /:id`, but answers with the (post-mutation) analytics JSON
instead of a redirect. -/
def statsOp (now : Int) (id : String) (s : Store) (t : Sched) :
    Option StatsView × Store × Sched :=
  match cacheGet s id with
  | none => (none, s, t)
  | some e =>
    if now > e.expires then (none, cacheDelete s id, t)
    else
      (some { id := id, originalUrl := e.originalUrl, clicks := e.clicks + 1,
              created := e.created, expires := e.expires, lastAccessed := now },
       cacheSet s id { e with clicks := e.clicks + 1, lastAccessed := now },
       bufferedSave t)

/-! ## src/middleware.js: the rate limiter -/

/-- One value of `rateLimitStore`: `{ count, windowStart }`. -/
structure RateWindow where
  count : Nat
  windowStart : Int
deriving DecidableEq

/-- `rateLimitStore`, a JS object keyed by client ip. -/
abbrev RateStore := List (String × RateWindow)

/-- Property read `rateLimitStore[ip]`. -/
def rwGet (rs : RateStore) (ip : String) : Option RateWindow :=
  match rs with
  | [] => none
  | (k, w) :: rest => if k = ip then some w else rwGet rest ip

/-- Property write `rateLimitStore[ip] = w` (also models the in-place
`record.count++`, which mutates the stored object). -/
def rwSet (rs : RateStore) (ip : String) (w : RateWindow) : RateStore :=
  match rs with
  | [] => [(ip, w)]
  | (k, w0) :: rest =>
    if k = ip then (k, w) :: rest else (k, w0) :: rwSet rest ip w

/-- Result of the `rateLimiter` middleware: `granted` = call `next()`,
`denied` = respond 429. -/
inductive LimitResult where
  | granted
  | denied
deriving DecidableEq

/-- `rateLimiter` (src/middleware.js): no record or stale window
(`now - windowStart > RATE_WINDOW_MS`) → reset to `{count: 1, windowStart: now}`
and pass; `count >= RATE_LIMIT` → 429 without mutation; else `count++` and
pass. -/
def rateLimiter (now : Int) (ip : String) (rs : RateStore) :
    LimitResult × RateStore :=
  match rwGet rs ip with
  | none => (.granted, rwSet rs ip ⟨1, now⟩)
  | some record =>
    if now - record.windowStart > RATE_WINDOW_MS then
      (.granted, rwSet rs ip ⟨1, now⟩)
    else if record.count ≥ RATE_LIMIT then
      (.denied, rs)
    else
      (.granted, rwSet rs ip ⟨record.count + 1, record.windowStart⟩)

/-- The limiter's effect on a single client's window (the only part of
`rateLimitStore` that `rateLimiter now ip` reads or writes — see the
`rateLimiter_*` correspondence lemmas). -/
def limiterStep (now : Int) (w : Option RateWindow) :
    LimitResult × Option RateWindow :=
  match w with
  | none => (.granted, some ⟨1, now⟩)
  | some record =>
    if now - record.windowStart > RATE_WINDOW_MS then
      (.granted, some ⟨1, now⟩)
    else if record.count ≥ RATE_LIMIT then
      (.denied, some record)
    else
      (.granted, some ⟨record.count + 1, record.windowStart⟩)

/-- Run a sequence of limiter calls for one client at the given times,
collecting the outcomes and the final window. -/
def limiterRun : Option RateWindow → List Int → List LimitResult × Option RateWindow
  | w, [] => ([], w)
  | w, t :: ts =>
    ((limiterStep t w).1 :: (limiterRun (limiterStep t w).2 ts).1,
     (limiterRun (limiterStep t w).2 ts).2)

/-- Number of granted calls in a sequence of limiter calls for one client. -/
def countGranted : Option RateWindow → List Int → Nat
  | _, [] => 0
  | w, t :: ts =>
    (if (limiterStep t w).1 = LimitResult.granted then 1 else 0) +
      countGranted (limiterStep t w).2 ts

/-! ## Lemmas about the cache operations -/

theorem cacheGet_cacheSet_self (s : Store) (id : String) (e : Entry) :
    cacheGet (cacheSet s id e) id = some e := by
  induction s with
  | nil => simp [cacheSet, cacheGet]
  | cons p rest ih =>
    obtain ⟨k, e0⟩ := p
    by_cases hk : k = id
    · subst hk
      simp [cacheSet, cacheGet]
    · simp [cacheSet, cacheGet, hk, ih]

theorem cacheGet_cacheSet_other (s : Store) (id id2 : String) (e : Entry)
    (h : id2 ≠ id) : cacheGet (cacheSet s id e) id2 = cacheGet s id2 := by
  induction s with
  | nil => simp [cacheSet, cacheGet, Ne.symm h]
  | cons p rest ih =>
    obtain ⟨k, e0⟩ := p
    by_cases hk : k = id
    · subst hk
      simp [cacheSet, cacheGet, Ne.symm h]
    · simp [cacheSet, cacheGet, hk, ih]

theorem cacheGet_cacheDelete_self (s : Store) (id : String) :
    cacheGet (cacheDelete s id) id = none := by
  induction s with
  | nil => simp [cacheDelete, cacheGet]
  | cons p rest ih =>
    obtain ⟨k, e0⟩ := p
    by_cases hk : k = id
    · simp [cacheDelete, hk, ih]
    · simp [cacheDelete, cacheGet, hk, ih]

theorem cacheGet_cacheDelete_other (s : Store) (id id2 : String)
    (h : id2 ≠ id) : cacheGet (cacheDelete s id) id2 = cacheGet s id2 := by
  induction s with
  | nil => simp [cacheDelete]
  | cons p rest ih =>
    obtain ⟨k, e0⟩ := p
    by_cases hk : k = id
    · subst hk
      simp [cacheDelete, cacheGet, Ne.symm h, ih]
    · simp [cacheDelete, cacheGet, hk, ih]

theorem mem_cacheSet (s : Store) (id : String) (e : Entry) (p : String × Entry)
    (h : p ∈ cacheSet s id e) : p = (id, e) ∨ p ∈ s := by
  induction s with
  | nil => simpa [cacheSet] using h
  | cons q rest ih =>
    obtain ⟨k, e0⟩ := q
    by_cases hk : k = id
    · subst hk
      simp only [cacheSet, if_pos rfl] at h
      rcases List.mem_cons.mp h with h | h
      · exact Or.inl h
      · exact Or.inr (List.mem_cons_of_mem _ h)
    · simp only [cacheSet, if_neg hk] at h
      rcases List.mem_cons.mp h with h | h
      · exact Or.inr (by simp [h])
      · rcases ih h with h | h
        · exact Or.inl h
        · exact Or.inr (List.mem_cons_of_mem _ h)

theorem mem_cacheDelete (s : Store) (id : String) (p : String × Entry)
    (h : p ∈ cacheDelete s id) : p ∈ s := by
  induction s with
  | nil => simpa [cacheDelete] using h
  | cons q rest ih =>
    obtain ⟨k, e0⟩ := q
    by_cases hk : k = id
    · simp only [cacheDelete, if_pos hk] at h
      exact List.mem_cons_of_mem _ (ih h)
    · simp only [cacheDelete, if_neg hk] at h
      rcases List.mem_cons.mp h with h | h
      · simp [h]
      · exact List.mem_cons_of_mem _ (ih h)

theorem cacheGet_mem (s : Store) (id : String) (e : Entry)
    (h : cacheGet s id = some e) : (id, e) ∈ s := by
  induction s with
  | nil => simp [cacheGet] at h
  | cons q rest ih =>
    obtain ⟨k, e0⟩ := q
    by_cases hk : k = id
    · subst hk
      simp [cacheGet] at h
      simp [h]
    · simp only [cacheGet, if_neg hk] at h
      exact List.mem_cons_of_mem _ (ih h)

theorem cacheGet_eq_none (s : Store) (id : String) (h : id ∉ s.map Prod.fst) :
    cacheGet s id = none := by
  induction s with
  | nil => rfl
  | cons q rest ih =>
    obtain ⟨k, e0⟩ := q
    simp only [List.map_cons, List.mem_cons] at h
    push_neg at h
    simp [cacheGet, Ne.symm h.1, ih h.2]

/-! ## Lemmas about the sweeper loop -/

theorem recycleLoop_mem (now : Int) (s : Store) (p : String × Entry)
    (h : p ∈ (recycleLoop now s).1) : p ∈ s := by
  induction s with
  | nil => simpa [recycleLoop] using h
  | cons q rest ih =>
    obtain ⟨k, e⟩ := q
    by_cases he : shouldEvict now e
    · simp only [recycleLoop, if_pos he] at h
      exact List.mem_cons_of_mem _ (ih h)
    · simp only [recycleLoop, if_neg he] at h
      rcases List.mem_cons.mp h with h | h
      · simp [h]
      · exact List.mem_cons_of_mem _ (ih h)

theorem recycleLoop_get_none (now : Int) (s : Store) (id : String)
    (h : cacheGet s id = none) : cacheGet (recycleLoop now s).1 id = none := by
  induction s with
  | nil => simp [recycleLoop, cacheGet]
  | cons q rest ih =>
    obtain ⟨k, e⟩ := q
    by_cases hk : k = id
    · subst hk
      simp [cacheGet] at h
    · simp only [cacheGet, if_neg hk] at h
      by_cases he : shouldEvict now e
      · simp only [recycleLoop, if_pos he]
        exact ih h
      · simp only [recycleLoop, if_neg he]
        simp [cacheGet, hk, ih h]

theorem recycleLoop_get_some (now : Int) (s : Store) (id : String) (e : Entry)
    (hnd : (s.map Prod.fst).Nodup) (h : cacheGet s id = some e) :
    cacheGet (recycleLoop now s).1 id =
      if shouldEvict now e then none else some e := by
  induction s with
  | nil => simp [cacheGet] at h
  | cons q rest ih =>
    obtain ⟨k, e0⟩ := q
    simp only [List.map_cons, List.nodup_cons] at hnd
    by_cases hk : k = id
    · subst hk
      simp [cacheGet] at h
      subst h
      by_cases he : shouldEvict now e0
      · simp only [recycleLoop, if_pos he]
        rw [recycleLoop_get_none now rest k (cacheGet_eq_none rest k hnd.1)]
      · simp only [recycleLoop, if_neg he]
        simp [cacheGet, he]
    · simp only [cacheGet, if_neg hk] at h
      by_cases he : shouldEvict now e0
      · simp only [recycleLoop, if_pos he]
        exact ih hnd.2 h
      · simp only [recycleLoop, if_neg he]
        simpa [cacheGet, hk] using ih hnd.2 h

theorem recycleLoop_changed (now : Int) (s : Store) :
    (recycleLoop now s).2 = true ↔ ∃ p ∈ s, shouldEvict now p.2 := by
  induction s with
  | nil => simp [recycleLoop]
  | cons q rest ih =>
    obtain ⟨k, e⟩ := q
    by_cases he : shouldEvict now e
    · simp [recycleLoop, he]
    · simp [recycleLoop, he, ih]

/-! ## Lemmas about the rate-limit store -/

theorem rwGet_rwSet_self (rs : RateStore) (ip : String) (w : RateWindow) :
    rwGet (rwSet rs ip w) ip = some w := by
  induction rs with
  | nil => simp [rwSet, rwGet]
  | cons p rest ih =>
    obtain ⟨k, w0⟩ := p
    by_cases hk : k = ip
    · subst hk
      simp [rwSet, rwGet]
    · simp [rwSet, rwGet, hk, ih]

theorem rwGet_rwSet_other (rs : RateStore) (ip ip2 : String) (w : RateWindow)
    (h : ip2 ≠ ip) : rwGet (rwSet rs ip w) ip2 = rwGet rs ip2 := by
  induction rs with
  | nil => simp [rwSet, rwGet, Ne.symm h]
  | cons p rest ih =>
    obtain ⟨k, w0⟩ := p
    by_cases hk : k = ip
    · subst hk
      simp [rwSet, rwGet, Ne.symm h]
    · simp [rwSet, rwGet, hk, ih]

theorem mem_rwSet (rs : RateStore) (ip : String) (w : RateWindow)
    (p : String × RateWindow) (h : p ∈ rwSet rs ip w) : p = (ip, w) ∨ p ∈ rs := by
  induction rs with
  | nil => simpa [rwSet] using h
  | cons q rest ih =>
    obtain ⟨k, w0⟩ := q
    by_cases hk : k = ip
    · subst hk
      simp only [rwSet, if_pos rfl] at h
      rcases List.mem_cons.mp h with h | h
      · exact Or.inl h
      · exact Or.inr (List.mem_cons_of_mem _ h)
    · simp only [rwSet, if_neg hk] at h
      rcases List.mem_cons.mp h with h | h
      · exact Or.inr (by simp [h])
      · rcases ih h with h | h
        · exact Or.inl h
        · exact Or.inr (List.mem_cons_of_mem _ h)

theorem rwGet_mem (rs : RateStore) (ip : String) (w : RateWindow)
    (h : rwGet rs ip = some w) : (ip, w) ∈ rs := by
  induction rs with
  | nil => simp [rwGet] at h
  | cons q rest ih =>
    obtain ⟨k, w0⟩ := q
    by_cases hk : k = ip
    · subst hk
      simp [rwGet] at h
      simp [h]
    · simp only [rwGet, if_neg hk] at h
      exact List.mem_cons_of_mem _ (ih h)

/-! ## `rateLimiter` acts on exactly one client's window -/

theorem rateLimiter_fst (now : Int) (ip : String) (rs : RateStore) :
    (rateLimiter now ip rs).1 = (limiterStep now (rwGet rs ip)).1 := by
  cases h : rwGet rs ip with
  | none => simp [rateLimiter, limiterStep, h]
  | some record =>
    simp only [rateLimiter, limiterStep, h]
    by_cases h1 : now - record.windowStart > RATE_WINDOW_MS
    · simp [h1]
    · by_cases h2 : record.count ≥ RATE_LIMIT <;> simp [h1, h2]

theorem rateLimiter_get_self (now : Int) (ip : String) (rs : RateStore) :
    rwGet (rateLimiter now ip rs).2 ip = (limiterStep now (rwGet rs ip)).2 := by
  cases h : rwGet rs ip with
  | none => simp [rateLimiter, limiterStep, h, rwGet_rwSet_self]
  | some record =>
    simp only [rateLimiter, limiterStep, h]
    by_cases h1 : now - record.windowStart > RATE_WINDOW_MS
    · simp [h1, rwGet_rwSet_self]
    · by_cases h2 : record.count ≥ RATE_LIMIT
      · simp [h1, h2, h]
      · simp [h1, h2, rwGet_rwSet_self]

theorem rateLimiter_get_other (now : Int) (ip ip2 : String) (rs : RateStore)
    (h : ip2 ≠ ip) : rwGet (rateLimiter now ip rs).2 ip2 = rwGet rs ip2 := by
  cases hg : rwGet rs ip with
  | none => simp [rateLimiter, hg, rwGet_rwSet_other _ _ _ _ h]
  | some record =>
    simp only [rateLimiter, hg]
    by_cases h1 : now - record.windowStart > RATE_WINDOW_MS
    · simp [h1, rwGet_rwSet_other _ _ _ _ h]
    · by_cases h2 : record.count ≥ RATE_LIMIT
      · simp [h1, h2]
      · simp [h1, h2, rwGet_rwSet_other _ _ _ _ h]

/-! ## Burst-bound machinery for the limiter -/

theorem countGranted_no_reset (ts : List Int) :
    ∀ r : RateWindow, (∀ t ∈ ts, t - r.windowStart ≤ RATE_WINDOW_MS) →
      countGranted (some r) ts ≤ RATE_LIMIT - r.count := by
  induction ts with
  | nil =>
    intro r _
    simp [countGranted]
  | cons t ts ih =>
    intro r h
    have hts : t - r.windowStart ≤ RATE_WINDOW_MS := h t (by simp)
    have h2 : ∀ u ∈ ts, u - r.windowStart ≤ RATE_WINDOW_MS :=
      fun u hu => h u (by simp [hu])
    simp only [countGranted, limiterStep]
    simp only [if_neg (not_lt.mpr hts)]
    by_cases hc : r.count ≥ RATE_LIMIT
    · simp only [if_pos hc]
      simpa using ih r h2
    · simp only [if_neg hc]
      have hrec := ih ⟨r.count + 1, r.windowStart⟩ h2
      simp only [RATE_LIMIT] at hrec hc ⊢
      simp at hrec ⊢
      omega

theorem countGranted_one_reset (ts : List Int) :
    ∀ r : RateWindow, 1 ≤ r.count →
      (∀ t ∈ ts, ∀ u ∈ ts, t - u < RATE_WINDOW_MS) →
      countGranted (some r) ts ≤ (RATE_LIMIT - r.count) + RATE_LIMIT := by
  induction ts with
  | nil =>
    intro r _ _
    simp [countGranted]
  | cons t ts ih =>
    intro r hc hd
    have hd2 : ∀ x ∈ ts, ∀ y ∈ ts, x - y < RATE_WINDOW_MS :=
      fun x hx y hy => hd x (by simp [hx]) y (by simp [hy])
    simp only [countGranted, limiterStep]
    by_cases hs : t - r.windowStart > RATE_WINDOW_MS
    · simp only [if_pos hs]
      have hle : ∀ u ∈ ts, u - (⟨1, t⟩ : RateWindow).windowStart ≤ RATE_WINDOW_MS := by
        intro u hu
        exact le_of_lt (hd u (by simp [hu]) t (by simp))
      have hA := countGranted_no_reset ts ⟨1, t⟩ hle
      simp only [RATE_LIMIT] at hA ⊢
      simp at hA ⊢
      omega
    · simp only [if_neg hs]
      by_cases hq : r.count ≥ RATE_LIMIT
      · simp only [if_pos hq]
        have := ih r hc hd2
        simpa using this
      · simp only [if_neg hq]
        have hrec := ih ⟨r.count + 1, r.windowStart⟩ (by simp) hd2
        simp only [RATE_LIMIT] at hrec hq ⊢
        simp at hrec ⊢
        omega

/-! ## Per-window bounds of the limiter -/

theorem rateLimiter_WF (now : Int) (ip : String) (rs : RateStore)
    (hw : ∀ p ∈ rs, 1 ≤ p.2.count ∧ p.2.count ≤ RATE_LIMIT) :
    ∀ p ∈ (rateLimiter now ip rs).2, 1 ≤ p.2.count ∧ p.2.count ≤ RATE_LIMIT := by
  intro p hp
  cases hg : rwGet rs ip with
  | none =>
    simp only [rateLimiter, hg] at hp
    rcases mem_rwSet _ _ _ _ hp with h | h
    · subst h
      simp [RATE_LIMIT]
    · exact hw p h
  | some record =>
    simp only [rateLimiter, hg] at hp
    by_cases h1 : now - record.windowStart > RATE_WINDOW_MS
    · rw [if_pos h1] at hp
      rcases mem_rwSet _ _ _ _ hp with h | h
      · subst h
        simp [RATE_LIMIT]
      · exact hw p h
    · rw [if_neg h1] at hp
      by_cases h2 : record.count ≥ RATE_LIMIT
      · rw [if_pos h2] at hp
        exact hw p hp
      · rw [if_neg h2] at hp
        rcases mem_rwSet _ _ _ _ hp with h | h
        · subst h
          dsimp
          omega
        · exact hw p h

/-- All `rateLimiter` calls made since startup, applied to the initially
empty `rateLimitStore` (src/middleware.js), oldest first. -/
def runLimiter (ops : List (Int × String)) : RateStore :=
  ops.foldl (fun rs q => (rateLimiter q.1 q.2 rs).2) []

/-! ## Spec-worded liveness predicate (for comparison with the code) -/

/-- Modelled from the spec: the liveness predicate of spec §3,
"a record is live iff `now <= expiresAt AND now - lastAccessedAt <= IdleTTL`".
Stated from the spec's words so the resolution handlers' actual check can be
compared against it. -/
def specLive (now : Int) (e : Entry) : Prop :=
  now ≤ e.expires ∧ now - e.lastAccessed ≤ LAST_ACCESS_LIMIT

instance specLiveDec (now : Int) (e : Entry) : Decidable (specLive now e) :=
  inferInstanceAs (Decidable (_ ∧ _))

/-! ## Whole-system runs over the cache (for reachable-state invariants) -/

/-- One externally triggered operation on the cache: the three handlers of
src/routes.js plus the hourly sweeper of src/db.js. -/
inductive Op where
  | create (id url : String)
  | resolve (id : String)
  | stats (id : String)
  | sweep

/-- State change performed by one operation arriving at time `now`. -/
def applyOp (now : Int) : Op → Store × Sched → Store × Sched
  | .create id url, st => (createOp now id url st.1 st.2).2
  | .resolve id, st => (resolveOp now id st.1 st.2).2
  | .stats id, st => (statsOp now id st.1 st.2).2
  | .sweep, st => ((recycle now st.1 st.2).1, (recycle now st.1 st.2).2.1)

/-- Run a list of timestamped operations, oldest first. -/
def runSys : Store × Sched → List (Int × Op) → Store × Sched
  | st, [] => st
  | st, q :: ops => runSys (applyOp q.1 q.2 st) ops

/-- The record invariants of spec §3 together with the clock bound that
makes them inductive: `expiresAt = createdAt + FixedTTL`,
`createdAt ≤ lastAccessedAt`, and `lastAccessedAt ≤ now`. -/
def EntryWF (now : Int) (e : Entry) : Prop :=
  e.expires = e.created + EXPIRY_MS ∧ e.created ≤ e.lastAccessed ∧
    e.lastAccessed ≤ now

def StoreWF (now : Int) (s : Store) : Prop := ∀ p ∈ s, EntryWF now p.2

theorem EntryWF_mono {n1 n2 : Int} (h : n1 ≤ n2) {e : Entry}
    (hw : EntryWF n1 e) : EntryWF n2 e :=
  ⟨hw.1, hw.2.1, le_trans hw.2.2 h⟩

theorem applyOp_WF (now now2 : Int) (o : Op) (st : Store × Sched)
    (hle : now ≤ now2) (hw : StoreWF now st.1) :
    StoreWF now2 (applyOp now2 o st).1 := by
  cases o with
  | create id url =>
    intro p hp
    by_cases hu : url = ""
    · simp only [applyOp, createOp, if_pos hu] at hp
      exact EntryWF_mono hle (hw p hp)
    · simp only [applyOp, createOp, if_neg hu] at hp
      rcases mem_cacheSet _ _ _ _ hp with h | h
      · subst h
        exact ⟨rfl, le_refl _, le_refl _⟩
      · exact EntryWF_mono hle (hw p h)
  | resolve id =>
    intro p hp
    cases hg : cacheGet st.1 id with
    | none =>
      simp only [applyOp, resolveOp, hg] at hp
      exact EntryWF_mono hle (hw p hp)
    | some e =>
      simp only [applyOp, resolveOp, hg] at hp
      by_cases hx : now2 > e.expires
      · rw [if_pos hx] at hp
        exact EntryWF_mono hle (hw p (mem_cacheDelete _ _ _ hp))
      · rw [if_neg hx] at hp
        rcases mem_cacheSet _ _ _ _ hp with h | h
        · subst h
          have he : EntryWF now e := hw _ (cacheGet_mem _ _ _ hg)
          refine ⟨he.1, ?_, le_refl _⟩
          have h1 := he.2.1
          have h2 := he.2.2
          dsimp
          omega
        · exact EntryWF_mono hle (hw p h)
  | stats id =>
    intro p hp
    cases hg : cacheGet st.1 id with
    | none =>
      simp only [applyOp, statsOp, hg] at hp
      exact EntryWF_mono hle (hw p hp)
    | some e =>
      simp only [applyOp, statsOp, hg] at hp
      by_cases hx : now2 > e.expires
      · rw [if_pos hx] at hp
        exact EntryWF_mono hle (hw p (mem_cacheDelete _ _ _ hp))
      · rw [if_neg hx] at hp
        rcases mem_cacheSet _ _ _ _ hp with h | h
        · subst h
          have he : EntryWF now e := hw _ (cacheGet_mem _ _ _ hg)
          refine ⟨he.1, ?_, le_refl _⟩
          have h1 := he.2.1
          have h2 := he.2.2
          dsimp
          omega
        · exact EntryWF_mono hle (hw p h)
  | sweep =>
    intro p hp
    simp only [applyOp, recycle] at hp
    exact EntryWF_mono hle (hw p (recycleLoop_mem _ _ _ hp))

theorem runSys_WF : ∀ (ops : List (Int × Op)) (st : Store × Sched) (now : Int),
    StoreWF now st.1 → (∀ q ∈ ops, now ≤ q.1) →
    List.Pairwise (fun a b : Int × Op => a.1 ≤ b.1) ops →
    ∃ m, StoreWF m (runSys st ops).1 := by
  intro ops
  induction ops with
  | nil =>
    intro st now hw _ _
    exact ⟨now, hw⟩
  | cons q ops ih =>
    intro st now hw hb hp
    have h1 : now ≤ q.1 := hb q (by simp)
    have hw2 : StoreWF q.1 (applyOp q.1 q.2 st).1 :=
      applyOp_WF now q.1 q.2 st h1 hw
    exact ih (applyOp q.1 q.2 st) q.1 hw2 (List.pairwise_cons.mp hp).1
      (List.pairwise_cons.mp hp).2

/-- Number of `bufferedSave` calls made by one sweeper run, as a function of
the loop's `changed` flag. -/
theorem recycle_calls (now : Int) (s : Store) (t : Sched) :
    (recycle now s t).2.2 = if (recycleLoop now s).2 then 1 else 0 := by
  by_cases hb : (recycleLoop now s).2 <;> simp [recycle, hb]

/-! ## Claim C1 -/

/-- C1 counterexample: the claim says a record that is not live (here: its
72-hour idle TTL is exceeded while `expiresAt` has not passed) is answered
with NotFound and evicted; the `GET /:id` handler only checks `expires`, so
it instead redirects, increments the hit counter and refreshes
`lastAccessed`. -/
theorem resolve_ignores_idle_clause :
    ¬ specLive (LAST_ACCESS_LIMIT + 1) ⟨"u", 0, EXPIRY_MS, 0, 0⟩ ∧
    (resolveOp (LAST_ACCESS_LIMIT + 1) "a"
        [("a", ⟨"u", 0, EXPIRY_MS, 0, 0⟩)] Sched.init).1 =
      ResolveResult.redirect "u" ∧
    cacheGet (resolveOp (LAST_ACCESS_LIMIT + 1) "a"
        [("a", ⟨"u", 0, EXPIRY_MS, 0, 0⟩)] Sched.init).2.1 "a" =
      some ⟨"u", 0, EXPIRY_MS, LAST_ACCESS_LIMIT + 1, 1⟩ := by
  refine ⟨?_, ?_, ?_⟩ <;> decide

/-- C1 (amended): `resolve(id)` and `inspect(id)` return NotFound iff the id
is absent or `now > expiresAt` — the idle-TTL clause is not re-checked on
access; a present but expired record is evicted as a side effect before
NotFound; otherwise (even when the idle TTL is exceeded) hitCount is
incremented by exactly one, `lastAccessedAt` is set to `now`, every other id
is untouched, and the record (resp. its stats view) is returned. -/
theorem resolve_inspect_access_semantics (now : Int) (id : String) (s : Store)
    (t : Sched) :
    (cacheGet s id = none →
      resolveOp now id s t = (.notFound, s, t) ∧
      statsOp now id s t = (none, s, t)) ∧
    (∀ e, cacheGet s id = some e → now > e.expires →
      (resolveOp now id s t).1 = .notFound ∧
      cacheGet (resolveOp now id s t).2.1 id = none ∧
      (statsOp now id s t).1 = none ∧
      cacheGet (statsOp now id s t).2.1 id = none) ∧
    (∀ e, cacheGet s id = some e → ¬ now > e.expires →
      (resolveOp now id s t).1 = .redirect e.originalUrl ∧
      cacheGet (resolveOp now id s t).2.1 id =
        some { e with clicks := e.clicks + 1, lastAccessed := now } ∧
      (∀ id2, id2 ≠ id →
        cacheGet (resolveOp now id s t).2.1 id2 = cacheGet s id2) ∧
      (statsOp now id s t).1 =
        some ⟨id, e.originalUrl, e.clicks + 1, e.created, e.expires, now⟩ ∧
      cacheGet (statsOp now id s t).2.1 id =
        some { e with clicks := e.clicks + 1, lastAccessed := now }) := by
  refine ⟨?_, ?_, ?_⟩
  · intro h
    simp [resolveOp, statsOp, h]
  · intro e hg hx
    simp [resolveOp, statsOp, hg, hx, cacheGet_cacheDelete_self]
  · intro e hg hx
    refine ⟨?_, ?_, ?_, ?_, ?_⟩
    · simp [resolveOp, hg, hx]
    · simp [resolveOp, hg, hx, cacheGet_cacheSet_self]
    · intro id2 h2
      simp [resolveOp, hg, hx, cacheGet_cacheSet_other _ _ _ _ h2]
    · simp [statsOp, hg, hx]
    · simp [statsOp, hg, hx, cacheGet_cacheSet_self]

theorem resolve_inspect_access_semantics_witness :
    (resolveOp 5 "a" [("a", ⟨"u", 0, 10, 0, 0⟩)] Sched.init).1 =
      ResolveResult.redirect "u" :=
  ((resolve_inspect_access_semantics 5 "a" [("a", ⟨"u", 0, 10, 0, 0⟩)]
      Sched.init).2.2 ⟨"u", 0, 10, 0, 0⟩ (by decide) (by decide)).1

/-! ## Claim C2 -/

/-- C2: for a single client starting from no window or any reachable window
(one with `count ≥ 1`), every sequence of limiter calls whose times all lie
in an interval shorter than WindowDuration gets at most
`2 * MaxPerWindow - 1` (= 9) granted outcomes. -/
theorem limiter_burst_bound (w0 : Option RateWindow) (ts : List Int)
    (hw : w0 = none ∨ ∃ r, w0 = some r ∧ 1 ≤ r.count)
    (hd : ∀ t ∈ ts, ∀ u ∈ ts, t - u < RATE_WINDOW_MS) :
    countGranted w0 ts ≤ 2 * RATE_LIMIT - 1 := by
  rcases hw with h | ⟨r, hr, hc⟩
  · subst h
    cases ts with
    | nil => simp [countGranted]
    | cons t ts =>
      have hle : ∀ u ∈ ts, u - t ≤ RATE_WINDOW_MS := by
        intro u hu
        exact le_of_lt (hd u (by simp [hu]) t (by simp))
      have hA := countGranted_no_reset ts ⟨1, t⟩ (by simpa using hle)
      simp only [countGranted, limiterStep]
      simp only [RATE_LIMIT] at hA ⊢
      simp at hA ⊢
      omega
  · subst hr
    have hB := countGranted_one_reset ts r hc hd
    simp only [RATE_LIMIT] at hB ⊢
    omega

theorem limiter_burst_bound_witness :
    countGranted none [0, 0, 0, 0, 0, 0] ≤ 2 * RATE_LIMIT - 1 :=
  limiter_burst_bound none [0, 0, 0, 0, 0, 0] (Or.inl rfl) (by decide)

/-! ## Claim C3 -/

/-- C3 counterexample: the claim says `create` always generates a fresh id —
one not already mapped in the store.  The handler stores under whatever id
the generator returns, with no freshness check: when that id is already
mapped, create succeeds and the old record is silently overwritten. -/
theorem create_id_collision_overwrites :
    cacheGet [("abc", ⟨"old", 0, EXPIRY_MS, 0, 7⟩)] "abc" =
      some ⟨"old", 0, EXPIRY_MS, 0, 7⟩ ∧
    (createOp 5 "abc" "new" [("abc", ⟨"old", 0, EXPIRY_MS, 0, 7⟩)]
        Sched.init).1 = some (5 + EXPIRY_MS) ∧
    cacheGet (createOp 5 "abc" "new"
        [("abc", ⟨"old", 0, EXPIRY_MS, 0, 7⟩)] Sched.init).2.1 "abc" =
      some ⟨"new", 5, 5 + EXPIRY_MS, 5, 0⟩ := by
  refine ⟨?_, ?_, ?_⟩ <;> decide

/-- C3 (amended): `create(target)` fails with InvalidInput iff the target is
empty; for every non-empty target it succeeds, storing under the generated id
a record with `createdAt = now`, `expiresAt = now + FixedTTL`,
`hitCount = 0`, `lastAccessedAt = createdAt`, leaving every other id
unchanged and signalling the Write-Back Scheduler — but the generated id is
not checked against the store, so a colliding id overwrites the old record
rather than being fresh. -/
theorem create_semantics (now : Int) (id url : String) (s : Store)
    (t : Sched) :
    (url = "" → createOp now id url s t = (none, s, t)) ∧
    (url ≠ "" →
      (createOp now id url s t).1 = some (now + EXPIRY_MS) ∧
      cacheGet (createOp now id url s t).2.1 id =
        some ⟨url, now, now + EXPIRY_MS, now, 0⟩ ∧
      (∀ id2, id2 ≠ id →
        cacheGet (createOp now id url s t).2.1 id2 = cacheGet s id2) ∧
      (createOp now id url s t).2.2 = bufferedSave t) := by
  refine ⟨?_, ?_⟩
  · intro h
    simp [createOp, h]
  · intro h
    refine ⟨?_, ?_, ?_, ?_⟩
    · simp [createOp, h]
    · simp [createOp, h, cacheGet_cacheSet_self]
    · intro id2 h2
      simp [createOp, h, cacheGet_cacheSet_other _ _ _ _ h2]
    · simp [createOp, h]

theorem create_semantics_witness :
    (createOp 0 "a" "u" [] Sched.init).1 = some (0 + EXPIRY_MS) :=
  ((create_semantics 0 "a" "u" [] Sched.init).2 (by decide)).1

/-! ## Claim C4 -/

/-- C4: starting from no window (or a stale one), exactly five consecutive
limiter calls within WindowDuration of the first are granted, and a sixth
call within the same window is denied without mutating the client's
window. -/
theorem limiter_window_quota (t1 t2 t3 t4 t5 t6 : Int) (w0 : Option RateWindow)
    (h0 : w0 = none ∨ ∃ r, w0 = some r ∧ t1 - r.windowStart > RATE_WINDOW_MS)
    (h2 : t2 - t1 ≤ RATE_WINDOW_MS) (h3 : t3 - t1 ≤ RATE_WINDOW_MS)
    (h4 : t4 - t1 ≤ RATE_WINDOW_MS) (h5 : t5 - t1 ≤ RATE_WINDOW_MS)
    (h6 : t6 - t1 ≤ RATE_WINDOW_MS) :
    (limiterRun w0 [t1, t2, t3, t4, t5]).1 =
      [.granted, .granted, .granted, .granted, .granted] ∧
    (limiterStep t6 (limiterRun w0 [t1, t2, t3, t4, t5]).2).1 = .denied ∧
    (limiterStep t6 (limiterRun w0 [t1, t2, t3, t4, t5]).2).2 =
      (limiterRun w0 [t1, t2, t3, t4, t5]).2 := by
  have s1 : limiterStep t1 w0 = (.granted, some ⟨1, t1⟩) := by
    rcases h0 with h | ⟨r, hr, hst⟩
    · subst h
      rfl
    · subst hr
      simp [limiterStep, hst]
  have s2 : limiterStep t2 (some ⟨1, t1⟩) = (.granted, some ⟨2, t1⟩) := by
    simp [limiterStep, not_lt.mpr h2, RATE_LIMIT]
  have s3 : limiterStep t3 (some ⟨2, t1⟩) = (.granted, some ⟨3, t1⟩) := by
    simp [limiterStep, not_lt.mpr h3, RATE_LIMIT]
  have s4 : limiterStep t4 (some ⟨3, t1⟩) = (.granted, some ⟨4, t1⟩) := by
    simp [limiterStep, not_lt.mpr h4, RATE_LIMIT]
  have s5 : limiterStep t5 (some ⟨4, t1⟩) = (.granted, some ⟨5, t1⟩) := by
    simp [limiterStep, not_lt.mpr h5, RATE_LIMIT]
  have s6 : limiterStep t6 (some ⟨5, t1⟩) = (.denied, some ⟨5, t1⟩) := by
    simp [limiterStep, not_lt.mpr h6, RATE_LIMIT]
  simp [limiterRun, s1, s2, s3, s4, s5, s6]

theorem limiter_window_quota_witness :
    (limiterStep 0 (limiterRun none [0, 0, 0, 0, 0]).2).1 =
      LimitResult.denied :=
  (limiter_window_quota 0 0 0 0 0 0 none (Or.inl rfl) (by decide) (by decide)
    (by decide) (by decide) (by decide)).2.1

/-! ## Claim C5 -/

/-- C5: a client whose window is stale (`now - windowStart > WindowDuration`)
— whatever its count, including a just-denied one — is granted on the next
call and its window is replaced by `{count := 1, windowStart := now}`. -/
theorem limiter_stale_reset (now : Int) (ip : String) (rs : RateStore)
    (r : RateWindow) (hfound : rwGet rs ip = some r)
    (hstale : now - r.windowStart > RATE_WINDOW_MS) :
    (rateLimiter now ip rs).1 = .granted ∧
      rwGet (rateLimiter now ip rs).2 ip = some ⟨1, now⟩ := by
  constructor
  · simp [rateLimiter, hfound, hstale]
  · simp [rateLimiter, hfound, hstale, rwGet_rwSet_self]

theorem limiter_stale_reset_witness :
    (rateLimiter (RATE_WINDOW_MS + 1) "a" [("a", ⟨5, 0⟩)]).1 =
      LimitResult.granted :=
  (limiter_stale_reset (RATE_WINDOW_MS + 1) "a" [("a", ⟨5, 0⟩)] ⟨5, 0⟩
    (by decide) (by decide)).1

/-! ## Claim C6 -/

/-- C6: one sweeper run removes exactly the records failing the liveness
predicate (`now > expiresAt` or `now - lastAccessedAt > IdleTTL`), leaves
every live record unchanged, and invokes `bufferedSave` exactly once when at
least one record was evicted and zero times when none was — never once per
eviction. -/
theorem recycle_evicts_exactly_dead (now : Int) (s : Store) (t : Sched)
    (hnd : (s.map Prod.fst).Nodup) :
    (∀ id e, cacheGet s id = some e →
      cacheGet (recycle now s t).1 id =
        if shouldEvict now e then none else some e) ∧
    (∀ id, cacheGet s id = none → cacheGet (recycle now s t).1 id = none) ∧
    (recycle now s t).2.2 = (if ∃ p ∈ s, shouldEvict now p.2 then 1 else 0) := by
  refine ⟨?_, ?_, ?_⟩
  · intro id e h
    simpa [recycle] using recycleLoop_get_some now s id e hnd h
  · intro id h
    simpa [recycle] using recycleLoop_get_none now s id h
  · rw [recycle_calls]
    by_cases he : ∃ p ∈ s, shouldEvict now p.2
    · rw [(recycleLoop_changed now s).mpr he]
      simp [he]
    · have hb : ¬ ((recycleLoop now s).2 = true) :=
        fun hh => he ((recycleLoop_changed now s).mp hh)
      simp only [Bool.not_eq_true] at hb
      rw [hb]
      simp [he]

theorem recycle_evicts_exactly_dead_witness :
    (recycle 0 [("a", ⟨"u", 0, 10, 0, 0⟩)] Sched.init).2.2 =
      (if ∃ p ∈ ([("a", ⟨"u", 0, 10, 0, 0⟩)] : Store), shouldEvict 0 p.2
       then 1 else 0) :=
  (recycle_evicts_exactly_dead 0 [("a", ⟨"u", 0, 10, 0, 0⟩)] Sched.init
    (by simp)).2.2

/-! ## Claim C7 -/

/-- C7: while a flush is pending, any number of further `bufferedSave` calls
leaves the scheduler state unchanged, and when the pending delay elapses
exactly one durable write is performed. -/
theorem bufferedSave_idempotent_pending (t : Sched) (h : t.pending = true)
    (n : Nat) :
    bufferedSave^[n] t = t ∧
      (flushFire (bufferedSave^[n] t)).writes = t.writes + 1 ∧
      (flushFire (bufferedSave^[n] t)).pending = false := by
  have hfix : bufferedSave t = t := by simp [bufferedSave, h]
  have hit : bufferedSave^[n] t = t := Function.iterate_fixed hfix n
  rw [hit]
  exact ⟨rfl, rfl, rfl⟩

theorem bufferedSave_idempotent_pending_witness :
    bufferedSave^[3] (⟨true, 0⟩ : Sched) = ⟨true, 0⟩ :=
  (bufferedSave_idempotent_pending ⟨true, 0⟩ rfl 3).1

/-! ## Claim C8 -/

/-- Chronological runs starting from the empty cache keep the store
well-formed at some final clock value. -/
theorem runSys_WF_empty (ops : List (Int × Op)) (t0 : Sched)
    (hp : List.Pairwise (fun a b : Int × Op => a.1 ≤ b.1) ops) :
    ∃ m, StoreWF m (runSys ([], t0) ops).1 := by
  cases ops with
  | nil =>
    refine ⟨0, ?_⟩
    intro p hp2
    simp [runSys] at hp2
  | cons q ops =>
    refine runSys_WF (q :: ops) ([], t0) q.1 ?_ ?_ hp
    · intro p h
      simp at h
    · intro u hu
      rcases List.mem_cons.mp hu with h | h
      · simp [h]
      · exact (List.pairwise_cons.mp hp).1 u h

/-- C8: in every reachable store state (any chronological sequence of
creates, resolves, stats reads and sweeps from the empty cache), every record
satisfies `expiresAt = createdAt + FixedTTL` and
`lastAccessedAt ≥ createdAt`; and no access ever changes a record's
`createdAt` or `expiresAt`. -/
theorem record_invariants_preserved (ops : List (Int × Op))
    (hchrono : List.Pairwise (fun a b : Int × Op => a.1 ≤ b.1) ops) :
    (∀ p ∈ (runSys ([], Sched.init) ops).1,
      p.2.expires = p.2.created + EXPIRY_MS ∧
        p.2.created ≤ p.2.lastAccessed) ∧
    (∀ now id s t e e2, cacheGet s id = some e →
      (cacheGet (resolveOp now id s t).2.1 id = some e2 →
        e2.created = e.created ∧ e2.expires = e.expires) ∧
      (cacheGet (statsOp now id s t).2.1 id = some e2 →
        e2.created = e.created ∧ e2.expires = e.expires)) := by
  constructor
  · obtain ⟨m, hm⟩ := runSys_WF_empty ops Sched.init hchrono
    intro p hp
    exact ⟨(hm p hp).1, (hm p hp).2.1⟩
  · intro now id s t e e2 hg
    constructor
    · intro h2
      by_cases hx : now > e.expires
      · simp [resolveOp, hg, hx, cacheGet_cacheDelete_self] at h2
      · simp [resolveOp, hg, hx, cacheGet_cacheSet_self] at h2
        subst h2
        exact ⟨rfl, rfl⟩
    · intro h2
      by_cases hx : now > e.expires
      · simp [statsOp, hg, hx, cacheGet_cacheDelete_self] at h2
      · simp [statsOp, hg, hx, cacheGet_cacheSet_self] at h2
        subst h2
        exact ⟨rfl, rfl⟩

theorem record_invariants_preserved_witness :
    (⟨"u", 0, 0 + EXPIRY_MS, 0, 0⟩ : Entry).expires =
      (⟨"u", 0, 0 + EXPIRY_MS, 0, 0⟩ : Entry).created + EXPIRY_MS ∧
    (⟨"u", 0, 0 + EXPIRY_MS, 0, 0⟩ : Entry).created ≤
      (⟨"u", 0, 0 + EXPIRY_MS, 0, 0⟩ : Entry).lastAccessed :=
  (record_invariants_preserved [((0 : Int), Op.create "a" "u")] (by simp)).1
    ("a", ⟨"u", 0, 0 + EXPIRY_MS, 0, 0⟩) (by decide)

/-! ## Claim C9 -/

/-- C9: `resolve` called after `expiresAt` has passed returns NotFound and
removes the record, and a subsequent resolve with the same id (at any later
call) also returns NotFound — eviction is permanent. -/
theorem resolve_after_expiry_permanent (now1 now2 : Int) (id : String)
    (s : Store) (t : Sched) (e : Entry) (hfound : cacheGet s id = some e)
    (hexp : now1 > e.expires) :
    (resolveOp now1 id s t).1 = .notFound ∧
    cacheGet (resolveOp now1 id s t).2.1 id = none ∧
    (resolveOp now2 id (resolveOp now1 id s t).2.1
      (resolveOp now1 id s t).2.2).1 = .notFound ∧
    cacheGet (resolveOp now2 id (resolveOp now1 id s t).2.1
      (resolveOp now1 id s t).2.2).2.1 id = none := by
  have h1 : resolveOp now1 id s t = (.notFound, cacheDelete s id, t) := by
    simp [resolveOp, hfound, hexp]
  have h2 : cacheGet (cacheDelete s id) id = none :=
    cacheGet_cacheDelete_self s id
  have h3 : resolveOp now2 id (cacheDelete s id) t =
      (.notFound, cacheDelete s id, t) := by
    simp [resolveOp, h2]
  rw [h1]
  simp [h2, h3]

theorem resolve_after_expiry_permanent_witness :
    (resolveOp 11 "a" [("a", ⟨"u", 0, 10, 0, 0⟩)] Sched.init).1 =
      ResolveResult.notFound :=
  (resolve_after_expiry_permanent 11 12 "a" [("a", ⟨"u", 0, 10, 0, 0⟩)]
    Sched.init ⟨"u", 0, 10, 0, 0⟩ (by decide) (by decide)).1

/-! ## Claim C10 -/

/-- C10: in every reachable `rateLimitStore` state — any sequence of limiter
calls from the empty store — every stored window satisfies
`1 ≤ count ≤ MaxPerWindow`. -/
theorem rate_window_count_bounds (ops : List (Int × String)) :
    ∀ p ∈ runLimiter ops, 1 ≤ p.2.count ∧ p.2.count ≤ RATE_LIMIT := by
  have key : ∀ (l : List (Int × String)) (rs : RateStore),
      (∀ p ∈ rs, 1 ≤ p.2.count ∧ p.2.count ≤ RATE_LIMIT) →
      ∀ p ∈ l.foldl (fun rs q => (rateLimiter q.1 q.2 rs).2) rs,
        1 ≤ p.2.count ∧ p.2.count ≤ RATE_LIMIT := by
    intro l
    induction l with
    | nil =>
      intro rs hw
      simpa using hw
    | cons q l ih =>
      intro rs hw
      simpa using ih _ (rateLimiter_WF q.1 q.2 rs hw)
  exact key ops [] (by simp)

theorem rate_window_count_bounds_witness :
    1 ≤ (("a", (⟨1, 0⟩ : RateWindow)) : String × RateWindow).2.count ∧
      (("a", (⟨1, 0⟩ : RateWindow)) : String × RateWindow).2.count ≤
        RATE_LIMIT :=
  rate_window_count_bounds [(0, "a")] ("a", ⟨1, 0⟩) (by decide)

end Linkin
